import Mathlib

/-!
# teerr: copy standard input to standard output and a second descriptor

A verification development over a shallow embedding of `teerr.go`.

* `atoi` and the argument handling of `main` are embedded from `teerr.go`.
* `io.Copy` and `io.MultiWriter`, which `main` calls, are embedded from the Go
  standard library (`io/io.go`, `io/multi.go`); `os.NewFile` from
  `os/file_unix.go`.
* Readers and writers are the environment: a reader is the sequence of results
  of its `Read` calls, a writer the sequence of results of its `Write` calls.
  A writer takes a prefix of the bytes it is given and reports its length.
* `io.Copy(w, os.Stdin)` runs the read/write loop of `io.copyBuffer`: the
  multi-writer has no `ReadFrom`, and `(*os.File).WriteTo` falls back to the
  same loop for a destination that is not a socket.
* `(*os.File).Read` and `(*os.File).Write`, the methods of `os.Stdin` and of
  the two sinks of `main`, are embedded from the Go standard library
  (`os/file.go`, `internal/poll/fd_unix.go`) over the results of the `read(2)`
  and `write(2)` system calls.
* The end of the process by a signal is outside the embedding.
-/

namespace Teerr

/-! ## Go's `int` -/

/-- Two's-complement wrap-around of a mathematical integer into Go's 64-bit `int`:
the representative of `x` modulo `2^64 = 18446744073709551616` in
`[-2^63, 2^63)`, with `2^63 = 9223372036854775808`. -/
def wrapInt (x : Int) : Int :=
  (x + 9223372036854775808) % 18446744073709551616 - 9223372036854775808

/-- Conversion `uintptr(n)` of a Go `int` to the 64-bit unsigned `uintptr`. -/
def uintptr (n : Int) : Nat := (n % 18446744073709551616).toNat

/-- Conversion `int(u)` of a `uintptr` to Go's 64-bit `int`. -/
def intOfUintptr (u : Nat) : Int := wrapInt (u : Int)

/-! ## `atoi`

A Go string is ranged over rune by rune.  The runes `range` yields are Unicode
scalar values (an invalid byte yields U+FFFD), so the string is taken as the
sequence of its runes, a Lean `String`; `s == ""` is emptiness of that sequence.
-/

/-- The body of `for _, c := range s` in `atoi`, with the accumulator `n`:
a rune outside `'0'..'9'` returns `(0, false)`, the end of the string returns
`(n, true)`; `n = n*10 + int(c-'0')` is evaluated in 64-bit `int`. -/
def atoiLoop : List Char → Int → Int × Bool
  | [], n => (n, true)
  | c :: cs, n =>
    if c < '0' ∨ c > '9' then (0, false)
    else atoiLoop cs (wrapInt (wrapInt (n * 10) + ((c.toNat : Int) - ('0'.toNat : Int))))

/-- The function `atoi` of `teerr.go`. -/
def atoi (s : String) : Int × Bool :=
  if s = "" then (0, false) else atoiLoop s.data 0

/-- A rune is an ASCII decimal digit. -/
def isDigit (c : Char) : Prop := '0' ≤ c ∧ c ≤ '9'

instance (c : Char) : Decidable (isDigit c) := by unfold isDigit; infer_instance

/-- The base-10 value of a string of decimal digits, most significant digit first. -/
def decimalValue (cs : List Char) : Nat :=
  cs.foldl (fun v c => 10 * v + (c.toNat - 48)) 0

/-! ## Files and sink selection -/

/-- An open `*os.File`: the descriptor it wraps. A nil `*os.File` is `none`
in `Option File`. -/
structure File where
  fd : Int
  deriving DecidableEq, Repr

/-- The function `os.NewFile` on Unix: `fdi := int(fd)`, a negative `fdi` gives
nil, any other value a file wrapping that descriptor (the descriptor need not
be open). -/
def NewFile (fd : Nat) : Option File :=
  let fdi := intOfUintptr fd
  if fdi < 0 then none else some ⟨fdi⟩

/-- The file `os.Stderr`, descriptor 2. -/
def Stderr : Option File := NewFile 2

/-- The first switch of `main`: `os.Args[1]` is one of the version flags. -/
def isVersionFlag (a : String) : Bool := a = "-V" || a = "--version" || a = "version"

/-- The first switch of `main`: `os.Args[1]` is one of the help flags. -/
def isHelpFlag (a : String) : Bool := a = "-h" || a = "--help" || a = "help"

/-- Lines 60-65 of `main`: `target := os.Stderr`, replaced by
`os.NewFile(uintptr(fd), "target")` when there is a first argument and `atoi`
accepts it. `args` is `os.Args`, the program name included. -/
def selectTarget (args : List String) : Option File :=
  let target := Stderr
  match args with
  | _ :: a :: _ =>
    match atoi a with
    | (fd, true) => NewFile (uintptr fd)
    | (_, false) => target
  | _ => target

/-! ## Errors, readers and writers -/

/-- The byte type. -/
abbrev Byte := UInt8

/-- Go `error` values: the sentinels the copy itself compares against or
creates, the error of a write through a nil file, the error of a file write
that makes no progress, and any other error of the environment, told apart by
a number (for a file, the `errno` of the system call). An `*os.PathError` is
identified with the error it wraps. -/
inductive GoError where
  | EOF
  | ErrShortWrite
  | errInvalidWrite
  | ErrInvalid
  | ErrUnexpectedEOF
  | other (code : Nat)
  deriving DecidableEq, Repr

/-- The result `(n, err)` of one `Read` call, with the `n` bytes it stored. -/
structure ReadResult where
  data : List Byte
  err : Option GoError

/-- A reader: the result of its `k`-th `Read` call, `k = 0, 1, ...`. -/
abbrev Reader := Nat → ReadResult

/-- The answer of a writer to one `Write` call: how many bytes it is ready to
take and the error it reports (`none` is nil). -/
structure WriteResult where
  n : Nat
  err : Option GoError

/-- A writer: its answer to its `k`-th `Write` call, given the bytes of the call. -/
abbrev Writer := Nat → List Byte → WriteResult

/-- What a sink has seen so far: the bytes it took and the number of `Write`
calls made on it. -/
structure Sink where
  received : List Byte
  calls : Nat
  deriving DecidableEq, Repr

/-- A sink before any write. -/
def Sink.empty : Sink := ⟨[], 0⟩

/-- One `w.Write(p)`: the writer takes the first `n` bytes of `p`, with `n` at
most `len(p)`, and returns `(n, err)`. An error may come with any `n`, and a
writer may return `n < len(p)` without an error. -/
def Sink.write (w : Writer) (s : Sink) (p : List Byte) : Sink × Int × Option GoError :=
  let r := w s.calls p
  let n := min r.n p.length
  (⟨s.received ++ p.take n, s.calls + 1⟩, (n : Int), r.err)

/-- The method `(*multiWriter).Write` of `io/multi.go` for the two writers of
`io.MultiWriter(os.Stdout, target)`:
  for each writer `w` in order, `n, err = w.Write(p)`; an error returns at once;
  `n != len(p)` returns `ErrShortWrite`; after the loop `len(p), nil`. -/
def multiWrite (w1 w2 : Writer) (s1 s2 : Sink) (p : List Byte) :
    (Sink × Sink) × Int × Option GoError :=
  match Sink.write w1 s1 p with
  | (s1', n, some e) => ((s1', s2), n, some e)
  | (s1', n, none) =>
    if n ≠ (p.length : Int) then ((s1', s2), n, some GoError.ErrShortWrite)
    else
      match Sink.write w2 s2 p with
      | (s2', n, some e) => ((s1', s2'), n, some e)
      | (s2', n, none) =>
        if n ≠ (p.length : Int) then ((s1', s2'), n, some GoError.ErrShortWrite)
        else ((s1', s2'), (p.length : Int), none)

/-! ## `(*os.File).Read` and `(*os.File).Write`

The system calls are the environment. The result of a system call is taken
after `ignoringEINTRIO` has retried an interrupted call and, on a pollable
descriptor, after the wait that follows `EAGAIN`. The chunks of `io.Copy` are
at most 32 KiB, below the limit `maxRW` of one system call.
-/

/-- The result of one `read(2)` on a descriptor: the bytes it stored (`n` is
their number) and its `errno`, if any. -/
structure SysRead where
  data : List Byte
  err : Option Nat

/-- The `read(2)` results of a descriptor: the result of the system call made
by the `k`-th `Read` call. -/
abbrev SysReader := Nat → SysRead

/-- The method `(*FD).Read` of `internal/poll`, behind `(*os.File).Read`:
  n, err := syscall.Read(fd.Sysfd, p)
  if err != nil { n = 0 }
  err = fd.eofError(n, err)   // n == 0 && err == nil gives io.EOF
  return n, err
A read that fails returns no byte; `wrapErr` keeps `io.EOF` as it is. -/
def fdRead (r : SysRead) : ReadResult :=
  match r.err with
  | some c => ⟨[], some (GoError.other c)⟩
  | none => if r.data = [] then ⟨[], some GoError.EOF⟩ else ⟨r.data, none⟩

/-- The file `os.Stdin` as a reader, over the `read(2)` results of its
descriptor. -/
def fileRead (sys : SysReader) : Reader := fun k => fdRead (sys k)

/-- The result of one `write(2)` on a descriptor: the number of bytes it took
(at most the number offered) and its `errno`, if any. -/
structure SysWrite where
  n : Nat
  err : Option Nat

/-- The `write(2)` results of a descriptor: the result of the `j`-th system
call made by the `k`-th `Write` call, given the bytes offered to it. -/
abbrev SysWriter := Nat → Nat → List Byte → SysWrite

/-- The loop of `(*FD).Write` of `internal/poll`, `nn` bytes of `p` being
written and `j` system calls made so far:
  for {
    n, err := syscall.Write(fd.Sysfd, p[nn:max])
    if n > 0 { nn += n }
    if nn == len(p) { return nn, err }
    if err != nil { return nn, err }
    if n == 0 { return nn, io.ErrUnexpectedEOF }
  }
A count above the number of bytes offered makes the Go loop panic; the count
is taken within the bytes offered.
An iteration that continues has taken at least one byte, so the loop makes at
most `len(p) - nn + 1` system calls; `fuel` counts them down, and the first
equation is not reached when `fuel` is above `len(p) - nn`
(`fdWriteLoop_fuel`). -/
def fdWriteLoop (sys : Nat → List Byte → SysWrite) (p : List Byte) :
    Nat → Nat → Nat → Nat × Option GoError
  | 0, _, nn => (nn, some GoError.ErrUnexpectedEOF)
  | fuel + 1, j, nn =>
    let r := sys j (p.drop nn)
    let n := min r.n (p.length - nn)
    let nn' := if n > 0 then nn + n else nn
    if nn' = p.length then (nn', r.err.map GoError.other)
    else
      match r.err with
      | some c => (nn', some (GoError.other c))
      | none =>
        if n = 0 then (nn', some GoError.ErrUnexpectedEOF)
        else fdWriteLoop sys p fuel (j + 1) nn'

/-- The method `(*FD).Write`: the loop from `nn = 0`. -/
def fdWrite (sys : Nat → List Byte → SysWrite) (p : List Byte) : Nat × Option GoError :=
  fdWriteLoop sys p (p.length + 1) 0 0

/-- The method `(*os.File).Write` of a non-nil file as a writer, over the
`write(2)` results of its descriptor:
  n, e := f.write(b)
  if n != len(b) { err = io.ErrShortWrite }
  if e != nil { err = f.wrapErr("write", e) }
  return n, err -/
def fileWrite (sys : SysWriter) : Writer := fun k p =>
  match fdWrite (sys k) p with
  | (n, e) =>
    let err : Option GoError := if n ≠ p.length then some GoError.ErrShortWrite else none
    ⟨n, match e with
        | some x => some x
        | none => err⟩

/-- Every `write(2)` on the descriptor reports no error and takes at least one
of the bytes offered; it may take fewer than offered. -/
def SysWriter.progresses (sys : SysWriter) : Prop :=
  ∀ k j q, (sys k j q).err = none ∧ (q ≠ [] → 0 < (sys k j q).n)

/-! ## `io.Copy` -/

/-- The state of `io.copyBuffer`'s loop: the number of `Read` calls made on the
source, the two sinks, the counter `written`, and `result`: `none` while the
loop runs, `some err` once it has left the loop and returns `err`. -/
structure CopyState where
  reads : Nat
  sink1 : Sink
  sink2 : Sink
  written : Int
  result : Option (Option GoError)

/-- The state on entry of `io.Copy`. -/
def CopyState.init : CopyState := ⟨0, Sink.empty, Sink.empty, 0, none⟩

/-- The end of an iteration of `io.copyBuffer`, after the write part:
  `if er != nil { if er != EOF { err = er }; break }`. -/
def afterRead (er : Option GoError) : Option (Option GoError) :=
  match er with
  | none => none
  | some e => if e ≠ GoError.EOF then some (some e) else some none

/-- One iteration of the loop of `io.copyBuffer` (`io/io.go`), `dst` being the
multi-writer:
  nr, er := src.Read(buf)
  if nr > 0 {
    nw, ew := dst.Write(buf[0:nr])
    if nw < 0 || nr < nw { nw = 0; if ew == nil { ew = errInvalidWrite } }
    written += int64(nw)
    if ew != nil { err = ew; break }
    if nr != nw { err = ErrShortWrite; break }
  }
  if er != nil { if er != EOF { err = er }; break }
A state that has left the loop does not change. -/
def copyStep (src : Reader) (w1 w2 : Writer) (st : CopyState) : CopyState :=
  match st.result with
  | some _ => st
  | none =>
    let r := src st.reads
    let nr : Int := (r.data.length : Int)
    if nr > 0 then
      match multiWrite w1 w2 st.sink1 st.sink2 r.data with
      | ((s1, s2), nw0, ew0) =>
        let bad : Bool := decide (nw0 < 0 ∨ nr < nw0)
        let nw : Int := if bad then 0 else nw0
        let ew : Option GoError :=
          if bad then (if ew0 = none then some GoError.errInvalidWrite else ew0) else ew0
        let written := st.written + nw
        match ew with
        | some e => ⟨st.reads + 1, s1, s2, written, some (some e)⟩
        | none =>
          if nr ≠ nw then ⟨st.reads + 1, s1, s2, written, some (some GoError.ErrShortWrite)⟩
          else ⟨st.reads + 1, s1, s2, written, afterRead r.err⟩
    else ⟨st.reads + 1, st.sink1, st.sink2, st.written, afterRead r.err⟩

/-- The loop of `io.copyBuffer` run for at most `fuel` iterations from `st`. -/
def copyFrom (src : Reader) (w1 w2 : Writer) : Nat → CopyState → CopyState
  | 0, st => st
  | fuel + 1, st => copyFrom src w1 w2 fuel (copyStep src w1 w2 st)

/-- The call `io.Copy(w, src)` with `w = io.MultiWriter(w1, w2)`, run for at
most `fuel` iterations. -/
def copy (src : Reader) (w1 w2 : Writer) (fuel : Nat) : CopyState :=
  copyFrom src w1 w2 fuel CopyState.init

/-- The bytes delivered by the first `k` `Read` calls of a reader. -/
def readSoFar (src : Reader) : Nat → List Byte
  | 0 => []
  | k + 1 => readSoFar src k ++ (src k).data

/-- A writer that takes every write in full and reports no error. -/
def Writer.acceptsAll (w : Writer) : Prop :=
  ∀ k p, p.length ≤ (w k p).n ∧ (w k p).err = none

/-! ## `main` -/

/-- The environment of one run of `main`: what `os.Stdin` returns to each
`Read`, how `os.Stdout` answers each `Write`, and how a file made by
`os.NewFile` (or `os.Stderr`) answers each `Write`. -/
structure Env where
  stdin : Reader
  stdout : Writer
  file : File → Writer

/-- The method `(*File).Write` as a writer: on a nil file `checkValid` fails and
the call returns `(0, ErrInvalid)`; otherwise the environment answers. -/
def Env.writerOf (env : Env) : Option File → Writer
  | none => fun _ _ => ⟨0, some GoError.ErrInvalid⟩
  | some f => env.file f

/-- What `main` printed with `fmt`, if anything. -/
inductive Printed where
  | nothing
  | version
  | usage
  deriving DecidableEq, Repr

/-- The observable end of a run of `main`: the exit status, what was printed,
the second sink if one was selected, and the state of the copy if one ran. -/
structure MainResult where
  exitCode : Nat
  printed : Printed
  target : Option (Option File)
  copied : Option CopyState

/-- The first argument is one of the six flags of the switch in `main`. -/
def isFlag (args : List String) : Bool :=
  match args with
  | _ :: a :: _ => isVersionFlag a || isHelpFlag a
  | _ => false

/-- The function `main` of `teerr.go`, the copy run for at most `fuel`
iterations: `none` when the copy is still in its loop after `fuel` iterations.
A flag prints and returns (status 0); otherwise the target is selected, the
copy runs, and an error of the copy is `os.Exit(1)`. -/
def main (args : List String) (env : Env) (fuel : Nat) : Option MainResult :=
  let flagged : Option Printed :=
    match args with
    | _ :: a :: _ =>
      if isVersionFlag a then some Printed.version
      else if isHelpFlag a then some Printed.usage
      else none
    | _ => none
  match flagged with
  | some pr => some ⟨0, pr, none, none⟩
  | none =>
    let target := selectTarget args
    let st := copy env.stdin env.stdout (env.writerOf target) fuel
    match st.result with
    | none => none
    | some (some _) => some ⟨1, Printed.nothing, some target, some st⟩
    | some none => some ⟨0, Printed.nothing, some target, some st⟩

/-- Iteration `k` of a copy met a read failure: the `k`-th read reported an
error other than `EOF`. -/
def readFailureAt (src : Reader) (k : Nat) : Prop :=
  ∃ e, (src k).err = some e ∧ e ≠ GoError.EOF

/-- Iteration `k` of a copy met a write failure: the `k`-th read delivered
bytes and the multi-writer returned an error for them (an error of a sink, or
`ErrShortWrite`). -/
def writeFailureAt (src : Reader) (w1 w2 : Writer) (k : Nat) : Prop :=
  (src k).data ≠ [] ∧
    (multiWrite w1 w2 (copy src w1 w2 k).sink1 (copy src w1 w2 k).sink2 (src k).data).2.2 ≠ none

/-! ## The invariant of the copy and the inputs of the examples -/

/-- The bytes delivered by the latest `Read` call, none before the first call. -/
def lastChunk (src : Reader) : Nat → List Byte
  | 0 => []
  | k + 1 => (src k).data

/-- The invariant of the copy loop. Unless the copy has failed, both sinks hold
exactly the bytes read so far; in every state sink two holds a prefix of what
sink one holds, sink one a prefix of the bytes read, and what sink one holds
beyond sink two is a part of the latest chunk. -/
def CopyInv (src : Reader) (st : CopyState) : Prop :=
  ((∀ e, st.result ≠ some (some e)) →
      st.sink1.received = readSoFar src st.reads ∧
      st.sink2.received = readSoFar src st.reads) ∧
    st.sink2.received <+: st.sink1.received ∧
    st.sink1.received <+: readSoFar src st.reads ∧
    ∃ d, st.sink1.received = st.sink2.received ++ d ∧ d <:+: lastChunk src st.reads

/-- A source of three bytes in two chunks, then a clean end-of-stream. -/
def exampleSource : Reader := fun k =>
  match k with
  | 0 => ⟨[104, 105], none⟩
  | 1 => ⟨[10], none⟩
  | _ => ⟨[], some GoError.EOF⟩

/-- A writer that takes every write in full. -/
def fullWriter : Writer := fun _ p => ⟨p.length, none⟩

/-- A descriptor whose every `write(2)` takes one byte and reports no error:
each write of a longer chunk is short. -/
def oneByteWrites : SysWriter := fun _ _ _ => ⟨1, none⟩

/-- A descriptor whose every `read(2)` fails with `errno` 5; the result is
given one byte to show that it is dropped. -/
def failingReads : SysReader := fun _ => ⟨[7], some 5⟩

/-- A writer that fails every call, taking nothing. -/
def failingWriter : Writer := fun _ _ => ⟨0, some (GoError.other 9)⟩

/-- An environment with `exampleSource` on standard input and sinks that take
every write. -/
def exampleEnv : Env := ⟨exampleSource, fullWriter, fun _ => fullWriter⟩


/-! ## Lemmas on `atoi` -/

theorem isDigit_iff (c : Char) : isDigit c ↔ 48 ≤ c.toNat ∧ c.toNat ≤ 57 := by
  unfold isDigit
  constructor
  · rintro ⟨h1, h2⟩
    exact ⟨h1, h2⟩
  · rintro ⟨h1, h2⟩
    exact ⟨h1, h2⟩

theorem not_digit_iff (c : Char) : (c < '0' ∨ c > '9') ↔ ¬ isDigit c := by
  unfold isDigit
  rw [not_and_or, not_le, not_le]

theorem wrapInt_of_range (x : Int) (h0 : -9223372036854775808 ≤ x)
    (h1 : x < 9223372036854775808) : wrapInt x = x := by
  unfold wrapInt
  omega

theorem wrapInt_range (x : Int) :
    -9223372036854775808 ≤ wrapInt x ∧ wrapInt x < 9223372036854775808 := by
  unfold wrapInt
  omega

theorem atoiLoop_ok_iff (cs : List Char) (n : Int) :
    (atoiLoop cs n).2 = true ↔ ∀ c ∈ cs, isDigit c := by
  induction cs generalizing n with
  | nil => simp [atoiLoop]
  | cons c cs ih =>
    unfold atoiLoop
    by_cases hc : c < '0' ∨ c > '9'
    · have hnd := (not_digit_iff c).1 hc
      simp only [if_pos hc, List.mem_cons]
      constructor
      · intro h; cases h
      · intro h; exact absurd (h c (Or.inl rfl)) hnd
    · have hd : isDigit c := by
        by_contra hnd
        exact hc ((not_digit_iff c).2 hnd)
      simp only [if_neg hc, List.mem_cons]
      rw [ih]
      constructor
      · intro h x hx
        rcases hx with rfl | hx
        · exact hd
        · exact h x hx
      · intro h x hx
        exact h x (Or.inr hx)

theorem atoiLoop_fail (cs : List Char) (n : Int) (h : (atoiLoop cs n).2 = false) :
    atoiLoop cs n = (0, false) := by
  induction cs generalizing n with
  | nil => simp [atoiLoop] at h
  | cons c cs ih =>
    unfold atoiLoop at h ⊢
    by_cases hc : c < '0' ∨ c > '9'
    · simp only [if_pos hc]
    · simp only [if_neg hc] at h ⊢
      exact ih _ h

theorem atoiLoop_range (cs : List Char) (n : Int)
    (h : -9223372036854775808 ≤ n ∧ n < 9223372036854775808) :
    -9223372036854775808 ≤ (atoiLoop cs n).1 ∧ (atoiLoop cs n).1 < 9223372036854775808 := by
  induction cs generalizing n with
  | nil => simpa [atoiLoop] using h
  | cons c cs ih =>
    unfold atoiLoop
    by_cases hc : c < '0' ∨ c > '9'
    · simp only [if_pos hc]
      omega
    · simp only [if_neg hc]
      exact ih _ (wrapInt_range _)

theorem atoi_range (s : String) :
    -9223372036854775808 ≤ (atoi s).1 ∧ (atoi s).1 < 9223372036854775808 := by
  unfold atoi
  by_cases hs : s = ""
  · simp only [if_pos hs]
    omega
  · simp only [if_neg hs]
    exact atoiLoop_range _ _ (by omega)

theorem decimal_foldl_ge (cs : List Char) (v : Nat) :
    v ≤ cs.foldl (fun v c => 10 * v + (c.toNat - 48)) v := by
  induction cs generalizing v with
  | nil => simp
  | cons c cs ih =>
    simp only [List.foldl_cons]
    exact le_trans (by omega) (ih _)

theorem atoiLoop_value (cs : List Char) (v : Nat) (hd : ∀ c ∈ cs, isDigit c)
    (hv : cs.foldl (fun v c => 10 * v + (c.toNat - 48)) v < 9223372036854775808) :
    atoiLoop cs (v : Int)
      = (((cs.foldl (fun v c => 10 * v + (c.toNat - 48)) v : Nat) : Int), true) := by
  induction cs generalizing v with
  | nil => simp [atoiLoop]
  | cons c cs ih =>
    have hc : isDigit c := hd c (List.mem_cons_self _ _)
    have hnc : ¬ (c < '0' ∨ c > '9') := fun h => (not_digit_iff c).1 h hc
    have hr := (isDigit_iff c).1 hc
    simp only [List.foldl_cons] at hv ⊢
    have hge := decimal_foldl_ge cs (10 * v + (c.toNat - 48))
    unfold atoiLoop
    simp only [if_neg hnc]
    have h0 : ('0'.toNat : Int) = 48 := by decide
    have hstep : wrapInt (wrapInt ((v : Int) * 10) + ((c.toNat : Int) - ('0'.toNat : Int)))
        = ((10 * v + (c.toNat - 48) : Nat) : Int) := by
      rw [h0, wrapInt_of_range ((v : Int) * 10) (by omega) (by omega)]
      rw [wrapInt_of_range _ (by omega) (by omega)]
      omega
    rw [hstep]
    exact ih _ (fun x hx => hd x (List.mem_cons_of_mem _ hx)) hv

/-! ## Claims on `atoi` -/

/-- C2: `atoi s` reports ok exactly when `s` is non-empty and each of its runes
is an ASCII decimal digit; in every other case the result is exactly
`(0, false)`, also after a valid digit prefix (`"12abc"`), for a sign, a dot,
a blank and a non-ASCII digit. -/
theorem atoi_ok_iff_digits (s : String) :
    ((atoi s).2 = true ↔ (s ≠ "" ∧ ∀ c ∈ s.data, isDigit c)) ∧
    (¬ (s ≠ "" ∧ ∀ c ∈ s.data, isDigit c) → atoi s = (0, false)) ∧
    atoi "12abc" = (0, false) ∧ atoi "-1" = (0, false) ∧ atoi "+1" = (0, false) ∧
    atoi "1.5" = (0, false) ∧ atoi " 1" = (0, false) ∧ atoi "1 " = (0, false) ∧
    atoi "١" = (0, false) ∧ atoi "" = (0, false) ∧ atoi "abc" = (0, false) := by
  have hiff : (atoi s).2 = true ↔ (s ≠ "" ∧ ∀ c ∈ s.data, isDigit c) := by
    unfold atoi
    by_cases hs : s = ""
    · simp [hs]
    · simp only [if_neg hs, atoiLoop_ok_iff]
      exact ⟨fun h => ⟨hs, h⟩, fun h => h.2⟩
  refine ⟨hiff, ?_, by decide, by decide, by decide, by decide, by decide, by decide,
    by decide, by decide, by decide⟩
  intro hn
  have hf : (atoi s).2 = false := by
    cases h : (atoi s).2 with
    | false => rfl
    | true => exact absurd (hiff.1 h) hn
  unfold atoi at hf ⊢
  by_cases hs : s = ""
  · simp only [if_pos hs]
  · simp only [if_neg hs] at hf ⊢
    exact atoiLoop_fail _ _ hf

/-- The instance of C2 at `"12abc"`: not all digits, so the result is `(0, false)`. -/
theorem atoi_ok_iff_digits_witness : atoi "12abc" = (0, false) :=
  (atoi_ok_iff_digits "12abc").2.1 (by decide)

/-- C3: for a non-empty string of ASCII decimal digits whose base-10 value is
below `2^63`, leading zeros allowed, `atoi` returns that value and ok. -/
theorem atoi_value_of_digits (s : String) (hne : s ≠ "")
    (hd : ∀ c ∈ s.data, isDigit c)
    (hv : decimalValue s.data < 9223372036854775808) :
    atoi s = ((decimalValue s.data : Int), true) := by
  unfold atoi decimalValue
  simp only [if_neg hne]
  have h := atoiLoop_value s.data 0 hd hv
  simpa using h

/-- The table of C3, each line an instance of the theorem: `"0"`, `"1"`, `"2"`,
`"10"`, `"123"` give 0, 1, 2, 10, 123; `"007"` gives 7 and the largest `int` is
returned as it is. -/
theorem atoi_value_of_digits_witness :
    atoi "0" = (0, true) ∧ atoi "1" = (1, true) ∧ atoi "2" = (2, true) ∧
    atoi "10" = (10, true) ∧ atoi "123" = (123, true) ∧ atoi "007" = (7, true) ∧
    atoi "9223372036854775807" = (9223372036854775807, true) :=
  ⟨atoi_value_of_digits "0" (by decide) (by decide) (by decide),
   atoi_value_of_digits "1" (by decide) (by decide) (by decide),
   atoi_value_of_digits "2" (by decide) (by decide) (by decide),
   atoi_value_of_digits "10" (by decide) (by decide) (by decide),
   atoi_value_of_digits "123" (by decide) (by decide) (by decide),
   atoi_value_of_digits "007" (by decide) (by decide) (by decide),
   atoi_value_of_digits "9223372036854775807" (by decide) (by decide) (by decide)⟩

set_option maxRecDepth 8192 in
/-- C4: on the digit string of `2^63` the accumulation wraps and `atoi` returns
the negative number `-2^63` with ok; on `2^64 + 2` it returns 2 with ok. -/
theorem atoi_overflow_negative :
    atoi "9223372036854775808" = (-9223372036854775808, true) ∧
    (atoi "9223372036854775808").1 < 0 ∧
    atoi "18446744073709551618" = (2, true) := by
  decide

/-! ## Lemmas on the multi-writer -/

theorem multiWrite_first_error (w1 w2 : Writer) (s1 s2 : Sink) (p : List Byte) (e : GoError)
    (h : (w1 s1.calls p).err = some e) :
    multiWrite w1 w2 s1 s2 p
      = ((⟨s1.received ++ p.take (min (w1 s1.calls p).n p.length), s1.calls + 1⟩, s2),
          ((min (w1 s1.calls p).n p.length : Nat) : Int), some e) := by
  simp [multiWrite, Sink.write, h]

theorem multiWrite_first_short (w1 w2 : Writer) (s1 s2 : Sink) (p : List Byte)
    (h : (w1 s1.calls p).err = none) (hn : (w1 s1.calls p).n < p.length) :
    multiWrite w1 w2 s1 s2 p
      = ((⟨s1.received ++ p.take (w1 s1.calls p).n, s1.calls + 1⟩, s2),
          (((w1 s1.calls p).n : Nat) : Int), some GoError.ErrShortWrite) := by
  have hmin : min (w1 s1.calls p).n p.length = (w1 s1.calls p).n := by omega
  have hne : ¬ (((w1 s1.calls p).n : Int) = (p.length : Int)) := by omega
  simp [multiWrite, Sink.write, h, hmin, hne]

theorem multiWrite_second_error (w1 w2 : Writer) (s1 s2 : Sink) (p : List Byte) (e : GoError)
    (h1 : (w1 s1.calls p).err = none) (hn1 : p.length ≤ (w1 s1.calls p).n)
    (h2 : (w2 s2.calls p).err = some e) :
    multiWrite w1 w2 s1 s2 p
      = ((⟨s1.received ++ p, s1.calls + 1⟩,
          ⟨s2.received ++ p.take (min (w2 s2.calls p).n p.length), s2.calls + 1⟩),
          ((min (w2 s2.calls p).n p.length : Nat) : Int), some e) := by
  have hmin : min (w1 s1.calls p).n p.length = p.length := by omega
  simp [multiWrite, Sink.write, h1, h2, hmin]

theorem multiWrite_second_short (w1 w2 : Writer) (s1 s2 : Sink) (p : List Byte)
    (h1 : (w1 s1.calls p).err = none) (hn1 : p.length ≤ (w1 s1.calls p).n)
    (h2 : (w2 s2.calls p).err = none) (hn2 : (w2 s2.calls p).n < p.length) :
    multiWrite w1 w2 s1 s2 p
      = ((⟨s1.received ++ p, s1.calls + 1⟩,
          ⟨s2.received ++ p.take (w2 s2.calls p).n, s2.calls + 1⟩),
          (((w2 s2.calls p).n : Nat) : Int), some GoError.ErrShortWrite) := by
  have hmin1 : min (w1 s1.calls p).n p.length = p.length := by omega
  have hmin2 : min (w2 s2.calls p).n p.length = (w2 s2.calls p).n := by omega
  have hne : ¬ (((w2 s2.calls p).n : Int) = (p.length : Int)) := by omega
  simp [multiWrite, Sink.write, h1, h2, hmin1, hmin2, hne]

theorem multiWrite_full (w1 w2 : Writer) (s1 s2 : Sink) (p : List Byte)
    (h1 : (w1 s1.calls p).err = none) (hn1 : p.length ≤ (w1 s1.calls p).n)
    (h2 : (w2 s2.calls p).err = none) (hn2 : p.length ≤ (w2 s2.calls p).n) :
    multiWrite w1 w2 s1 s2 p
      = ((⟨s1.received ++ p, s1.calls + 1⟩, ⟨s2.received ++ p, s2.calls + 1⟩),
          (p.length : Int), none) := by
  have hmin1 : min (w1 s1.calls p).n p.length = p.length := by omega
  have hmin2 : min (w2 s2.calls p).n p.length = p.length := by omega
  simp [multiWrite, Sink.write, h1, h2, hmin1, hmin2]

/-- The five ways a call of the multi-writer can go. -/
theorem multiWrite_cases (w1 w2 : Writer) (s1 s2 : Sink) (p : List Byte) :
    (∃ e, (w1 s1.calls p).err = some e) ∨
    ((w1 s1.calls p).err = none ∧ (w1 s1.calls p).n < p.length) ∨
    ((w1 s1.calls p).err = none ∧ p.length ≤ (w1 s1.calls p).n ∧
      ∃ e, (w2 s2.calls p).err = some e) ∨
    ((w1 s1.calls p).err = none ∧ p.length ≤ (w1 s1.calls p).n ∧
      (w2 s2.calls p).err = none ∧ (w2 s2.calls p).n < p.length) ∨
    ((w1 s1.calls p).err = none ∧ p.length ≤ (w1 s1.calls p).n ∧
      (w2 s2.calls p).err = none ∧ p.length ≤ (w2 s2.calls p).n) := by
  cases h1 : (w1 s1.calls p).err with
  | some e => exact Or.inl ⟨e, rfl⟩
  | none =>
    by_cases hn1 : (w1 s1.calls p).n < p.length
    · exact Or.inr (Or.inl ⟨rfl, hn1⟩)
    · have hn1' : p.length ≤ (w1 s1.calls p).n := by omega
      cases h2 : (w2 s2.calls p).err with
      | some e => exact Or.inr (Or.inr (Or.inl ⟨rfl, hn1', e, rfl⟩))
      | none =>
        by_cases hn2 : (w2 s2.calls p).n < p.length
        · exact Or.inr (Or.inr (Or.inr (Or.inl ⟨rfl, hn1', rfl, hn2⟩)))
        · exact Or.inr (Or.inr (Or.inr (Or.inr ⟨rfl, hn1', rfl, by omega⟩)))

/-- The count a multi-writer returns lies between 0 and the length of the write. -/
theorem multiWrite_count_range (w1 w2 : Writer) (s1 s2 : Sink) (p : List Byte) :
    0 ≤ (multiWrite w1 w2 s1 s2 p).2.1 ∧ (multiWrite w1 w2 s1 s2 p).2.1 ≤ (p.length : Int) := by
  rcases multiWrite_cases w1 w2 s1 s2 p with ⟨e, h⟩ | ⟨h, hn⟩ | ⟨h1, hn1, e, h2⟩ |
      ⟨h1, hn1, h2, hn2⟩ | ⟨h1, hn1, h2, hn2⟩
  · rw [multiWrite_first_error w1 w2 s1 s2 p e h]
    simp only
    omega
  · rw [multiWrite_first_short w1 w2 s1 s2 p h hn]
    simp only
    omega
  · rw [multiWrite_second_error w1 w2 s1 s2 p e h1 hn1 h2]
    simp only
    omega
  · rw [multiWrite_second_short w1 w2 s1 s2 p h1 hn1 h2 hn2]
    simp only
    omega
  · rw [multiWrite_full w1 w2 s1 s2 p h1 hn1 h2 hn2]
    simp only
    omega

/-- A multi-writer call without error has written all of `p` to both sinks. -/
theorem multiWrite_ok (w1 w2 : Writer) (s1 s2 : Sink) (p : List Byte)
    (hok : (multiWrite w1 w2 s1 s2 p).2.2 = none) :
    multiWrite w1 w2 s1 s2 p
      = ((⟨s1.received ++ p, s1.calls + 1⟩, ⟨s2.received ++ p, s2.calls + 1⟩),
          (p.length : Int), none) := by
  rcases multiWrite_cases w1 w2 s1 s2 p with ⟨e, h⟩ | ⟨h, hn⟩ | ⟨h1, hn1, e, h2⟩ |
      ⟨h1, hn1, h2, hn2⟩ | ⟨h1, hn1, h2, hn2⟩
  · rw [multiWrite_first_error w1 w2 s1 s2 p e h] at hok
    cases hok
  · rw [multiWrite_first_short w1 w2 s1 s2 p h hn] at hok
    cases hok
  · rw [multiWrite_second_error w1 w2 s1 s2 p e h1 hn1 h2] at hok
    cases hok
  · rw [multiWrite_second_short w1 w2 s1 s2 p h1 hn1 h2 hn2] at hok
    cases hok
  · exact multiWrite_full w1 w2 s1 s2 p h1 hn1 h2 hn2

/-- What the two sinks hold after a multi-writer call: sink one took a prefix
of `p`, sink two took a prefix of `p`, and sink two took nothing unless sink
one took all of `p`. -/
theorem multiWrite_received (w1 w2 : Writer) (s1 s2 : Sink) (p : List Byte) :
    ∃ a b, (multiWrite w1 w2 s1 s2 p).1.1.received = s1.received ++ p.take a ∧
      (multiWrite w1 w2 s1 s2 p).1.2.received = s2.received ++ p.take b ∧
      (b = 0 ∨ p.length ≤ a) := by
  rcases multiWrite_cases w1 w2 s1 s2 p with ⟨e, h⟩ | ⟨h, hn⟩ | ⟨h1, hn1, e, h2⟩ |
      ⟨h1, hn1, h2, hn2⟩ | ⟨h1, hn1, h2, hn2⟩
  · rw [multiWrite_first_error w1 w2 s1 s2 p e h]
    exact ⟨_, 0, rfl, by simp, Or.inl rfl⟩
  · rw [multiWrite_first_short w1 w2 s1 s2 p h hn]
    exact ⟨_, 0, rfl, by simp, Or.inl rfl⟩
  · rw [multiWrite_second_error w1 w2 s1 s2 p e h1 hn1 h2]
    exact ⟨p.length, _, by simp, rfl, Or.inr (le_refl _)⟩
  · rw [multiWrite_second_short w1 w2 s1 s2 p h1 hn1 h2 hn2]
    exact ⟨p.length, _, by simp, rfl, Or.inr (le_refl _)⟩
  · rw [multiWrite_full w1 w2 s1 s2 p h1 hn1 h2 hn2]
    exact ⟨p.length, p.length, by simp, by simp, Or.inr (le_refl _)⟩

/-! ## Lemmas on the copy loop -/

theorem copyStep_of_done (src : Reader) (w1 w2 : Writer) (st : CopyState)
    (h : st.result ≠ none) : copyStep src w1 w2 st = st := by
  unfold copyStep
  cases hr : st.result with
  | none => exact absurd hr h
  | some r => rfl

theorem copyFrom_of_done (src : Reader) (w1 w2 : Writer) (fuel : Nat) (st : CopyState)
    (h : st.result ≠ none) : copyFrom src w1 w2 fuel st = st := by
  induction fuel with
  | zero => rfl
  | succ k ih =>
    unfold copyFrom
    rw [copyStep_of_done src w1 w2 st h]
    exact ih

theorem copyFrom_add (src : Reader) (w1 w2 : Writer) (a b : Nat) (st : CopyState) :
    copyFrom src w1 w2 (a + b) st = copyFrom src w1 w2 b (copyFrom src w1 w2 a st) := by
  induction a generalizing st with
  | zero => simp [copyFrom]
  | succ k ih =>
    rw [Nat.succ_add]
    show copyFrom src w1 w2 (k + b) (copyStep src w1 w2 st)
      = copyFrom src w1 w2 b (copyFrom src w1 w2 k (copyStep src w1 w2 st))
    exact ih _

theorem copy_succ (src : Reader) (w1 w2 : Writer) (k : Nat) :
    copy src w1 w2 (k + 1) = copyStep src w1 w2 (copy src w1 w2 k) := by
  unfold copy
  rw [copyFrom_add]
  rfl

theorem copy_add_of_done (src : Reader) (w1 w2 : Writer) (k j : Nat)
    (h : (copy src w1 w2 k).result ≠ none) :
    copy src w1 w2 (k + j) = copy src w1 w2 k := by
  unfold copy at h ⊢
  rw [copyFrom_add]
  exact copyFrom_of_done src w1 w2 j _ h

/-- One iteration from a state that is still in the loop, with the dead
branches of `copyBuffer` removed: the count a multi-writer returns is never
negative and never above `nr`, and equals `nr` when it returns no error. -/
theorem copyStep_running (src : Reader) (w1 w2 : Writer) (st : CopyState)
    (h : st.result = none) :
    copyStep src w1 w2 st =
      if (src st.reads).data = [] then
        ⟨st.reads + 1, st.sink1, st.sink2, st.written, afterRead (src st.reads).err⟩
      else
        ⟨st.reads + 1,
          (multiWrite w1 w2 st.sink1 st.sink2 (src st.reads).data).1.1,
          (multiWrite w1 w2 st.sink1 st.sink2 (src st.reads).data).1.2,
          st.written + (multiWrite w1 w2 st.sink1 st.sink2 (src st.reads).data).2.1,
          match (multiWrite w1 w2 st.sink1 st.sink2 (src st.reads).data).2.2 with
          | some e => some (some e)
          | none => afterRead (src st.reads).err⟩ := by
  unfold copyStep
  simp only [h]
  by_cases hd : (src st.reads).data = []
  · simp [hd]
  · have hpos : ((src st.reads).data.length : Int) > 0 := by
      have := List.length_pos.2 hd
      omega
    simp only [if_pos hpos, if_neg hd]
    have hrange := multiWrite_count_range w1 w2 st.sink1 st.sink2 (src st.reads).data
    have hok := multiWrite_ok w1 w2 st.sink1 st.sink2 (src st.reads).data
    rcases hm : multiWrite w1 w2 st.sink1 st.sink2 (src st.reads).data with ⟨⟨s1, s2⟩, nw0, ew0⟩
    rw [hm] at hrange hok
    simp only at hrange hok
    have hbad : ¬ (nw0 < 0 ∨ ((src st.reads).data.length : Int) < nw0) := by omega
    simp only [hbad, decide_False, Bool.false_eq_true, if_false]
    cases ew0 with
    | some e => rfl
    | none =>
      have h3 := hok rfl
      simp only [Prod.mk.injEq] at h3
      have hnw : nw0 = ((src st.reads).data.length : Int) := h3.2.1
      simp [hnw]
theorem readSoFar_succ (src : Reader) (k : Nat) :
    readSoFar src (k + 1) = readSoFar src k ++ (src k).data := rfl

/-- One iteration when both writers take the chunk in full. -/
theorem copyStep_full (src : Reader) (w1 w2 : Writer) (st : CopyState)
    (h : st.result = none)
    (h1 : (w1 st.sink1.calls (src st.reads).data).err = none)
    (hn1 : (src st.reads).data.length ≤ (w1 st.sink1.calls (src st.reads).data).n)
    (h2 : (w2 st.sink2.calls (src st.reads).data).err = none)
    (hn2 : (src st.reads).data.length ≤ (w2 st.sink2.calls (src st.reads).data).n) :
    (copyStep src w1 w2 st).reads = st.reads + 1 ∧
    (copyStep src w1 w2 st).sink1.received = st.sink1.received ++ (src st.reads).data ∧
    (copyStep src w1 w2 st).sink2.received = st.sink2.received ++ (src st.reads).data ∧
    (copyStep src w1 w2 st).written = st.written + ((src st.reads).data.length : Int) ∧
    (copyStep src w1 w2 st).result = afterRead (src st.reads).err := by
  rw [copyStep_running src w1 w2 st h]
  by_cases hd : (src st.reads).data = []
  · simp [hd]
  · simp only [if_neg hd]
    rw [multiWrite_full w1 w2 st.sink1 st.sink2 _ h1 hn1 h2 hn2]
    simp

/-- While no read has reported an error and the writers take everything, the
copy is still in its loop after `k` iterations and both sinks hold the bytes of
the first `k` reads. -/
theorem copy_running (src : Reader) (w1 w2 : Writer) (N : Nat)
    (hread : ∀ k, k < N → (src k).err = none)
    (h1 : w1.acceptsAll) (h2 : w2.acceptsAll) :
    ∀ k, k ≤ N → (copy src w1 w2 k).result = none ∧ (copy src w1 w2 k).reads = k ∧
      (copy src w1 w2 k).sink1.received = readSoFar src k ∧
      (copy src w1 w2 k).sink2.received = readSoFar src k ∧
      (copy src w1 w2 k).written = ((readSoFar src k).length : Int) := by
  intro k
  induction k with
  | zero =>
    intro _
    simp [copy, copyFrom, CopyState.init, Sink.empty, readSoFar]
  | succ k ih =>
    intro hk
    obtain ⟨hr, hreads, hs1, hs2, hw⟩ := ih (by omega)
    have hstep := copyStep_full src w1 w2 (copy src w1 w2 k) hr
      (h1 _ _).2 (h1 _ _).1 (h2 _ _).2 (h2 _ _).1
    rw [← copy_succ, hreads] at hstep
    obtain ⟨a, b, c, d, e⟩ := hstep
    refine ⟨?_, a, ?_, ?_, ?_⟩
    · rw [e, hread k (by omega)]
      rfl
    · rw [b, hs1, readSoFar_succ]
    · rw [c, hs2, readSoFar_succ]
    · rw [d, hw, readSoFar_succ, List.length_append]
      push_cast
      rfl

theorem copyInv_init (src : Reader) : CopyInv src CopyState.init := by
  refine ⟨fun _ => ⟨rfl, rfl⟩, ?_, ?_, [], ?_, ?_⟩
  · exact List.prefix_refl _
  · exact List.prefix_refl _
  · rfl
  · exact List.infix_refl _

theorem copyInv_step (src : Reader) (w1 w2 : Writer) (st : CopyState)
    (hinv : CopyInv src st) : CopyInv src (copyStep src w1 w2 st) := by
  cases hr : st.result with
  | some r =>
    rw [copyStep_of_done src w1 w2 st (by rw [hr]; simp)]
    exact hinv
  | none =>
    obtain ⟨hs1, hs2⟩ := hinv.1 (by rw [hr]; simp)
    rw [copyStep_running src w1 w2 st hr]
    by_cases hd : (src st.reads).data = []
    · simp only [if_pos hd]
      unfold CopyInv
      simp only [readSoFar_succ, hd, List.append_nil, lastChunk]
      refine ⟨fun _ => ⟨hs1, hs2⟩, ?_, ?_, [], ?_, List.infix_refl _⟩
      · rw [hs1, hs2]
      · rw [hs1]
      · rw [hs1, hs2, List.append_nil]
    · simp only [if_neg hd]
      obtain ⟨a, b, ha, hb, hab⟩ :=
        multiWrite_received w1 w2 st.sink1 st.sink2 (src st.reads).data
      unfold CopyInv
      simp only [readSoFar_succ, lastChunk]
      rw [ha, hb, hs1, hs2]
      refine ⟨?_, ?_, ?_, ?_⟩
      · intro hne
        cases hm : (multiWrite w1 w2 st.sink1 st.sink2 (src st.reads).data).2.2 with
        | some e =>
          rw [hm] at hne
          exact absurd rfl (hne e)
        | none =>
          have hok := multiWrite_ok w1 w2 st.sink1 st.sink2 _ hm
          rw [hok] at ha hb
          simp only at ha hb
          rw [hs1] at ha
          rw [hs2] at hb
          exact ⟨ha.symm, hb.symm⟩
      · rcases hab with rfl | hfull
        · simp
        · rw [List.take_of_length_le hfull]
          exact (List.prefix_append_right_inj _).2 (List.take_prefix _ _)
      · exact (List.prefix_append_right_inj _).2 (List.take_prefix _ _)
      · rcases hab with rfl | hfull
        · exact ⟨List.take a (src st.reads).data, by simp, (List.take_prefix _ _).isInfix⟩
        · refine ⟨List.drop b (src st.reads).data, ?_, (List.drop_suffix _ _).isInfix⟩
          rw [List.take_of_length_le hfull, List.append_assoc, List.take_append_drop]

theorem copyInv_copy (src : Reader) (w1 w2 : Writer) (fuel : Nat) :
    CopyInv src (copy src w1 w2 fuel) := by
  induction fuel with
  | zero => exact copyInv_init src
  | succ k ih =>
    rw [copy_succ]
    exact copyInv_step src w1 w2 _ ih

/-! ## Lemmas on `(*os.File).Read` and `(*os.File).Write` -/

/-- A read of a file that reports an error returns no byte. -/
theorem fdRead_error_no_data (r : SysRead) (h : (fdRead r).err ≠ none) :
    (fdRead r).data = [] := by
  unfold fdRead at h ⊢
  cases he : r.err with
  | some c => rfl
  | none =>
    by_cases hd : r.data = []
    · simp [hd]
    · simp [he, hd] at h

/-- A failing `read(2)` makes the read of the file return no byte and the
error of the system call, whatever the system call stored. -/
theorem fdRead_of_error (r : SysRead) (c : Nat) (h : r.err = some c) :
    fdRead r = ⟨[], some (GoError.other c)⟩ := by
  unfold fdRead
  rw [h]

/-- The number of system calls allowed to the loop of `(*FD).Write` does not
matter once it is above the number of bytes still to write: the loop never
runs out of it. -/
theorem fdWriteLoop_fuel (sys : Nat → List Byte → SysWrite) (p : List Byte)
    (a b j nn : Nat) (hnn : nn ≤ p.length) (ha : p.length - nn < a) (hb : p.length - nn < b) :
    fdWriteLoop sys p a j nn = fdWriteLoop sys p b j nn := by
  induction a generalizing b j nn with
  | zero => omega
  | succ a ih =>
    cases b with
    | zero => omega
    | succ b =>
      unfold fdWriteLoop
      simp only
      generalize sys j (List.drop nn p) = r
      have hle : min r.n (p.length - nn) ≤ p.length - nn := Nat.min_le_right _ _
      generalize min r.n (p.length - nn) = n at hle ⊢
      by_cases hn : n > 0
      · simp only [if_pos hn]
        by_cases hfull : nn + n = p.length
        · simp only [if_pos hfull]
        · simp only [if_neg hfull]
          have hn0 : ¬ n = 0 := by omega
          simp only [if_neg hn0]
          rw [ih b (j + 1) (nn + n) (by omega) (by omega) (by omega)]
      · have hn0 : n = 0 := by omega
        subst hn0
        simp

/-- When every `write(2)` reports no error and takes at least one byte, the
loop of `(*FD).Write` writes all of `p` and returns no error. -/
theorem fdWriteLoop_complete (sys : Nat → List Byte → SysWrite) (p : List Byte)
    (hsys : ∀ j q, (sys j q).err = none ∧ (q ≠ [] → 0 < (sys j q).n))
    (fuel j nn : Nat) (hnn : nn ≤ p.length) (hfuel : p.length - nn < fuel) :
    fdWriteLoop sys p fuel j nn = (p.length, none) := by
  induction fuel generalizing j nn with
  | zero => omega
  | succ fuel ih =>
    unfold fdWriteLoop
    simp only
    have herr := (hsys j (List.drop nn p)).1
    have hprog : nn < p.length → 0 < (sys j (List.drop nn p)).n := by
      intro hlt
      apply (hsys j (List.drop nn p)).2
      intro h
      have := congrArg List.length h
      simp at this
      omega
    generalize sys j (List.drop nn p) = r at herr hprog
    have hle : min r.n (p.length - nn) ≤ p.length - nn := Nat.min_le_right _ _
    have hpos : nn < p.length → 0 < min r.n (p.length - nn) := by
      intro hlt
      have := hprog hlt
      omega
    generalize min r.n (p.length - nn) = n at hle hpos ⊢
    rw [herr]
    by_cases hlt : nn < p.length
    · have hn := hpos hlt
      have hn0 : ¬ n = 0 := by omega
      simp only [if_pos hn, Option.map_none', if_neg hn0]
      by_cases hfull : nn + n = p.length
      · simp only [if_pos hfull]
        rw [hfull]
      · simp only [if_neg hfull]
        exact ih (j + 1) (nn + n) (by omega) (by omega)
    · have hn0 : n = 0 := by omega
      have heq : nn = p.length := by omega
      subst hn0
      simp [heq]

/-- A write of a file never returns fewer bytes than asked without an error. -/
theorem fileWrite_no_silent_short (sys : SysWriter) (k : Nat) (p : List Byte)
    (h : (fileWrite sys k p).err = none) : (fileWrite sys k p).n = p.length := by
  unfold fileWrite at h ⊢
  rcases hw : fdWrite (sys k) p with ⟨n, e⟩
  rw [hw] at h
  simp only at h ⊢
  cases e with
  | some x => simp at h
  | none =>
    by_cases hn : n = p.length
    · exact hn
    · simp [hn] at h

/-- When every `write(2)` on its descriptor reports no error and takes at least
one byte, a write of the file takes all of `p` and reports no error. -/
theorem fileWrite_complete (sys : SysWriter) (hsys : sys.progresses) (k : Nat)
    (p : List Byte) : (fileWrite sys k p).n = p.length ∧ (fileWrite sys k p).err = none := by
  have h := fdWriteLoop_complete (sys k) p (hsys k) (p.length + 1) 0 0 (by omega) (by omega)
  unfold fileWrite fdWrite
  rw [h]
  simp

theorem fileWrite_acceptsAll (sys : SysWriter) (hsys : sys.progresses) :
    (fileWrite sys).acceptsAll := by
  intro k p
  obtain ⟨hn, he⟩ := fileWrite_complete sys hsys k p
  exact ⟨by omega, he⟩

/-- The copy over a source that ends cleanly and two writers that take every
write in full. -/
theorem copy_of_acceptsAll (src : Reader) (w1 w2 : Writer) (N : Nat)
    (hread : ∀ k, k < N → (src k).err = none)
    (heof : (src N).err = some GoError.EOF)
    (h1 : w1.acceptsAll) (h2 : w2.acceptsAll) :
    (copy src w1 w2 (N + 1)).result = some none ∧
    (copy src w1 w2 (N + 1)).sink1.received = readSoFar src (N + 1) ∧
    (copy src w1 w2 (N + 1)).sink2.received = readSoFar src (N + 1) ∧
    ∀ j, copy src w1 w2 (N + 1 + j) = copy src w1 w2 (N + 1) := by
  obtain ⟨hr, hreads, hs1, hs2, -⟩ := copy_running src w1 w2 N hread h1 h2 N (le_refl _)
  have hstep := copyStep_full src w1 w2 (copy src w1 w2 N) hr
    (h1 _ _).2 (h1 _ _).1 (h2 _ _).2 (h2 _ _).1
  rw [← copy_succ, hreads] at hstep
  obtain ⟨-, b, c, -, e⟩ := hstep
  have hres : (copy src w1 w2 (N + 1)).result = some none := by
    rw [e, heof]
    rfl
  refine ⟨hres, ?_, ?_, ?_⟩
  · rw [b, hs1, readSoFar_succ]
  · rw [c, hs2, readSoFar_succ]
  · intro j
    exact copy_add_of_done src w1 w2 (N + 1) j (by rw [hres]; simp)

/-! ## Claims on the copy -/

/-- C1: for every byte sequence `B` and every way the source's reads deliver it
(reads `0..N-1` without error, read `N` reporting end-of-stream, the bytes of
reads `0..N` being `B`), with two sinks that take every write in full, the
copy leaves its loop after read `N` with no error, sink one holds exactly `B`,
sink two holds exactly `B`, `written` is the length of `B`, and more iterations
change nothing. -/
theorem copy_exact (B : List Byte) (src : Reader) (w1 w2 : Writer) (N : Nat)
    (hread : ∀ k, k < N → (src k).err = none)
    (heof : (src N).err = some GoError.EOF)
    (hB : readSoFar src (N + 1) = B)
    (h1 : w1.acceptsAll) (h2 : w2.acceptsAll) :
    (copy src w1 w2 (N + 1)).result = some none ∧
    (copy src w1 w2 (N + 1)).sink1.received = B ∧
    (copy src w1 w2 (N + 1)).sink2.received = B ∧
    (copy src w1 w2 (N + 1)).written = (B.length : Int) ∧
    ∀ j, copy src w1 w2 (N + 1 + j) = copy src w1 w2 (N + 1) := by
  obtain ⟨hr, hreads, hs1, hs2, hw⟩ := copy_running src w1 w2 N hread h1 h2 N (le_refl _)
  have hstep := copyStep_full src w1 w2 (copy src w1 w2 N) hr
    (h1 _ _).2 (h1 _ _).1 (h2 _ _).2 (h2 _ _).1
  rw [← copy_succ, hreads] at hstep
  obtain ⟨_, b, c, d, e⟩ := hstep
  have hres : (copy src w1 w2 (N + 1)).result = some none := by
    rw [e, heof]
    rfl
  refine ⟨hres, ?_, ?_, ?_, ?_⟩
  · rw [b, hs1, ← hB, readSoFar_succ]
  · rw [c, hs2, ← hB, readSoFar_succ]
  · rw [d, hw, ← hB, readSoFar_succ, List.length_append]
    push_cast
    rfl
  · intro j
    exact copy_add_of_done src w1 w2 (N + 1) j (by rw [hres]; simp)

/-- The instance of C1 at `exampleSource`: three bytes in two chunks reach both
sinks as they are. -/
theorem copy_exact_witness :
    (copy exampleSource fullWriter fullWriter 3).result = some none ∧
    (copy exampleSource fullWriter fullWriter 3).sink1.received = [104, 105, 10] ∧
    (copy exampleSource fullWriter fullWriter 3).sink2.received = [104, 105, 10] ∧
    (copy exampleSource fullWriter fullWriter 3).written = 3 ∧
    ∀ j, copy exampleSource fullWriter fullWriter (3 + j)
      = copy exampleSource fullWriter fullWriter 3 :=
  copy_exact [104, 105, 10] exampleSource fullWriter fullWriter 2
    (by intro k hk; match k, hk with
      | 0, _ => rfl
      | 1, _ => rfl)
    rfl rfl (fun _ _ => ⟨le_refl _, rfl⟩) (fun _ _ => ⟨le_refl _, rfl⟩)

/-- The instance of C1 at the empty input: the first read reports end-of-stream
and both sinks stay empty. -/
theorem copy_exact_empty :
    (copy (fun _ => ⟨[], some GoError.EOF⟩) fullWriter fullWriter 1).result = some none ∧
    (copy (fun _ => ⟨[], some GoError.EOF⟩) fullWriter fullWriter 1).sink1.received = [] ∧
    (copy (fun _ => ⟨[], some GoError.EOF⟩) fullWriter fullWriter 1).sink2.received = [] := by
  decide

/-- C6: from a state still in the loop whose next read delivers a non-empty
chunk `p`: if sink one's write of `p` reports an error `e`, the iteration ends
the copy with `e`, sink one was called once, sink two is untouched (no call, no
byte of `p`); if sink one takes `p` in full and sink two's write reports `e`,
the iteration ends the copy with `e` after one call on each sink. In both
cases no later iteration changes the state: no further read, no further write. -/
theorem write_error_stops (src : Reader) (w1 w2 : Writer) (st : CopyState)
    (hrun : st.result = none) (hp : (src st.reads).data ≠ []) :
    (∀ e, (w1 st.sink1.calls (src st.reads).data).err = some e →
      (copyStep src w1 w2 st).result = some (some e) ∧
      (copyStep src w1 w2 st).reads = st.reads + 1 ∧
      (copyStep src w1 w2 st).sink1.calls = st.sink1.calls + 1 ∧
      (copyStep src w1 w2 st).sink2 = st.sink2 ∧
      ∀ fuel, copyFrom src w1 w2 fuel (copyStep src w1 w2 st) = copyStep src w1 w2 st) ∧
    (∀ e, (w1 st.sink1.calls (src st.reads).data).err = none →
      (src st.reads).data.length ≤ (w1 st.sink1.calls (src st.reads).data).n →
      (w2 st.sink2.calls (src st.reads).data).err = some e →
      (copyStep src w1 w2 st).result = some (some e) ∧
      (copyStep src w1 w2 st).reads = st.reads + 1 ∧
      (copyStep src w1 w2 st).sink1 = ⟨st.sink1.received ++ (src st.reads).data,
        st.sink1.calls + 1⟩ ∧
      (copyStep src w1 w2 st).sink2.calls = st.sink2.calls + 1 ∧
      ∀ fuel, copyFrom src w1 w2 fuel (copyStep src w1 w2 st) = copyStep src w1 w2 st) := by
  constructor
  · intro e he
    have hres : (copyStep src w1 w2 st).result = some (some e) := by
      rw [copyStep_running src w1 w2 st hrun, if_neg hp,
        multiWrite_first_error w1 w2 st.sink1 st.sink2 _ e he]
    refine ⟨hres, ?_, ?_, ?_, ?_⟩
    · rw [copyStep_running src w1 w2 st hrun, if_neg hp]
    · rw [copyStep_running src w1 w2 st hrun, if_neg hp,
        multiWrite_first_error w1 w2 st.sink1 st.sink2 _ e he]
    · rw [copyStep_running src w1 w2 st hrun, if_neg hp,
        multiWrite_first_error w1 w2 st.sink1 st.sink2 _ e he]
    · intro fuel
      exact copyFrom_of_done src w1 w2 fuel _ (by rw [hres]; simp)
  · intro e h1 hn1 h2
    have hres : (copyStep src w1 w2 st).result = some (some e) := by
      rw [copyStep_running src w1 w2 st hrun, if_neg hp,
        multiWrite_second_error w1 w2 st.sink1 st.sink2 _ e h1 hn1 h2]
    refine ⟨hres, ?_, ?_, ?_, ?_⟩
    · rw [copyStep_running src w1 w2 st hrun, if_neg hp]
    · rw [copyStep_running src w1 w2 st hrun, if_neg hp,
        multiWrite_second_error w1 w2 st.sink1 st.sink2 _ e h1 hn1 h2]
    · rw [copyStep_running src w1 w2 st hrun, if_neg hp,
        multiWrite_second_error w1 w2 st.sink1 st.sink2 _ e h1 hn1 h2]
    · intro fuel
      exact copyFrom_of_done src w1 w2 fuel _ (by rw [hres]; simp)

/-- The instance of C6 at the first chunk of `exampleSource` with a failing
sink one: the copy ends with that error and sink two has seen no call. -/
theorem write_error_stops_witness :
    (copyStep exampleSource failingWriter fullWriter CopyState.init).result
      = some (some (GoError.other 9)) ∧
    (copyStep exampleSource failingWriter fullWriter CopyState.init).sink2 = Sink.empty :=
  have h := (write_error_stops exampleSource failingWriter fullWriter CopyState.init rfl
    (by decide)).1 (GoError.other 9) rfl
  ⟨h.1, h.2.2.2.1⟩



/-- C7: the sinks of `main` are files. When every `write(2)` on the two
descriptors reports no error and takes at least one byte, however few, each
`Write` call of a sink delivers its whole chunk before it returns, so the
multi-writer goes on to the other sink and the copy to the next chunk: over a
source that ends cleanly with bytes `B` the copy ends in success with both
sinks holding exactly `B`, and more iterations change nothing. And whatever the
system calls answer, a `Write` of a file never returns fewer bytes than asked
without an error. -/
theorem short_write_completed (B : List Byte) (src : Reader) (sys1 sys2 : SysWriter)
    (N : Nat)
    (hread : ∀ k, k < N → (src k).err = none)
    (heof : (src N).err = some GoError.EOF)
    (hB : readSoFar src (N + 1) = B)
    (h1 : sys1.progresses) (h2 : sys2.progresses) :
    (∀ k p, (fileWrite sys1 k p).n = p.length ∧ (fileWrite sys1 k p).err = none) ∧
    (∀ k p, (fileWrite sys2 k p).n = p.length ∧ (fileWrite sys2 k p).err = none) ∧
    (copy src (fileWrite sys1) (fileWrite sys2) (N + 1)).result = some none ∧
    (copy src (fileWrite sys1) (fileWrite sys2) (N + 1)).sink1.received = B ∧
    (copy src (fileWrite sys1) (fileWrite sys2) (N + 1)).sink2.received = B ∧
    (∀ j, copy src (fileWrite sys1) (fileWrite sys2) (N + 1 + j)
      = copy src (fileWrite sys1) (fileWrite sys2) (N + 1)) ∧
    (∀ (sys : SysWriter) k p, (fileWrite sys k p).err = none →
      (fileWrite sys k p).n = p.length) := by
  obtain ⟨hres, hs1, hs2, hstable⟩ := copy_of_acceptsAll src (fileWrite sys1) (fileWrite sys2) N
    hread heof (fileWrite_acceptsAll sys1 h1) (fileWrite_acceptsAll sys2 h2)
  refine ⟨fileWrite_complete sys1 h1, fileWrite_complete sys2 h2, hres, ?_, ?_, hstable,
    fileWrite_no_silent_short⟩
  · rw [hs1, hB]
  · rw [hs2, hB]

/-- The instance of C7 at `exampleSource` with two descriptors whose every
`write(2)` takes one byte: the first system call of the first chunk takes one
byte of two, and both sinks end with the three input bytes. -/
theorem short_write_completed_witness :
    (oneByteWrites 0 0 [104, 105]).n < [104, 105].length ∧
    (oneByteWrites 0 0 [104, 105]).err = none ∧
    (copy exampleSource (fileWrite oneByteWrites) (fileWrite oneByteWrites) 3).result
      = some none ∧
    (copy exampleSource (fileWrite oneByteWrites) (fileWrite oneByteWrites) 3).sink1.received
      = [104, 105, 10] ∧
    (copy exampleSource (fileWrite oneByteWrites) (fileWrite oneByteWrites) 3).sink2.received
      = [104, 105, 10] :=
  have h := short_write_completed [104, 105, 10] exampleSource oneByteWrites oneByteWrites 2
    (by intro k hk; match k, hk with
      | 0, _ => rfl
      | 1, _ => rfl)
    rfl rfl (fun _ _ _ => ⟨rfl, fun _ => Nat.one_pos⟩) (fun _ _ _ => ⟨rfl, fun _ => Nat.one_pos⟩)
  ⟨by decide, rfl, h.2.2.1, h.2.2.2.1, h.2.2.2.2.1⟩

/-- C8: the source of `main` is the file `os.Stdin`. From a state still in the
loop, if its next read returns an error `e` other than `EOF`, then the
`read(2)` behind it failed, the read returned no byte whatever the system call
stored, the iteration ends the copy with `e`, neither sink is called or given
a byte, and no later iteration changes the state: no further read, no write. -/
theorem file_read_error_stops (sys : SysReader) (w1 w2 : Writer) (st : CopyState)
    (e : GoError) (hrun : st.result = none)
    (herr : (fileRead sys st.reads).err = some e) (hne : e ≠ GoError.EOF) :
    (∃ c, (sys st.reads).err = some c ∧ e = GoError.other c) ∧
    (fileRead sys st.reads).data = [] ∧
    (copyStep (fileRead sys) w1 w2 st).result = some (some e) ∧
    (copyStep (fileRead sys) w1 w2 st).reads = st.reads + 1 ∧
    (copyStep (fileRead sys) w1 w2 st).sink1 = st.sink1 ∧
    (copyStep (fileRead sys) w1 w2 st).sink2 = st.sink2 ∧
    (copyStep (fileRead sys) w1 w2 st).written = st.written ∧
    ∀ fuel, copyFrom (fileRead sys) w1 w2 fuel (copyStep (fileRead sys) w1 w2 st)
      = copyStep (fileRead sys) w1 w2 st := by
  have hdata : (fileRead sys st.reads).data = [] :=
    fdRead_error_no_data (sys st.reads) (by
      show (fileRead sys st.reads).err ≠ none
      rw [herr]
      simp)
  have hsys : ∃ c, (sys st.reads).err = some c ∧ e = GoError.other c := by
    cases hc : (sys st.reads).err with
    | some c =>
      have h := fdRead_of_error (sys st.reads) c hc
      have h2 : (fileRead sys st.reads).err = some (GoError.other c) := by
        show (fdRead (sys st.reads)).err = some (GoError.other c)
        rw [h]
      rw [herr] at h2
      exact ⟨c, rfl, Option.some.inj h2⟩
    | none =>
      have h2 : (fdRead (sys st.reads)).err = some e := herr
      unfold fdRead at h2
      rw [hc] at h2
      by_cases hd : (sys st.reads).data = []
      · simp only [hd, if_true, Option.some.injEq] at h2
        exact absurd h2.symm hne
      · simp only [if_neg hd] at h2
        cases h2
  have hafter : afterRead (fileRead sys st.reads).err = some (some e) := by
    rw [herr]
    simp [afterRead, hne]
  have hstep : copyStep (fileRead sys) w1 w2 st
      = ⟨st.reads + 1, st.sink1, st.sink2, st.written, some (some e)⟩ := by
    rw [copyStep_running (fileRead sys) w1 w2 st hrun, if_pos hdata, hafter]
  refine ⟨hsys, hdata, ?_, ?_, ?_, ?_, ?_, ?_⟩
  · rw [hstep]
  · rw [hstep]
  · rw [hstep]
  · rw [hstep]
  · rw [hstep]
  · intro fuel
    exact copyFrom_of_done (fileRead sys) w1 w2 fuel _ (by rw [hstep]; simp)

/-- The instance of C8 at a descriptor whose `read(2)` fails with `errno` 5
while holding one byte: the copy fails with that error and both sinks are
untouched. -/
theorem file_read_error_stops_witness :
    (failingReads 0).data = [7] ∧
    (copyStep (fileRead failingReads) fullWriter fullWriter CopyState.init).result
      = some (some (GoError.other 5)) ∧
    (copyStep (fileRead failingReads) fullWriter fullWriter CopyState.init).sink1
      = Sink.empty ∧
    (copyStep (fileRead failingReads) fullWriter fullWriter CopyState.init).sink2
      = Sink.empty :=
  have h := file_read_error_stops failingReads fullWriter fullWriter CopyState.init
    (GoError.other 5) rfl rfl (by decide)
  ⟨rfl, h.2.2.1, h.2.2.2.2.1, h.2.2.2.2.2.1⟩

/-- C10: after any number of iterations, whether the copy is still running, has
ended in success or has failed, sink two holds a prefix of what sink one
holds, sink one holds a prefix of the bytes read from the source, and what sink
one holds beyond sink two is a part of the latest chunk read; unless the copy
has failed, both sinks hold exactly the bytes read. Between the two writes of
an iteration, sink two's content is a prefix of sink one's, which is a
prefix of the bytes read. -/
theorem sinks_ordered_invariant (src : Reader) (w1 w2 : Writer) (fuel : Nat) :
    (copy src w1 w2 fuel).sink2.received <+: (copy src w1 w2 fuel).sink1.received ∧
    (copy src w1 w2 fuel).sink1.received <+: readSoFar src (copy src w1 w2 fuel).reads ∧
    (∃ d, (copy src w1 w2 fuel).sink1.received = (copy src w1 w2 fuel).sink2.received ++ d ∧
      d <:+: lastChunk src (copy src w1 w2 fuel).reads) ∧
    ((∀ e, (copy src w1 w2 fuel).result ≠ some (some e)) →
      (copy src w1 w2 fuel).sink1.received = readSoFar src (copy src w1 w2 fuel).reads ∧
      (copy src w1 w2 fuel).sink2.received = readSoFar src (copy src w1 w2 fuel).reads) ∧
    ((copy src w1 w2 fuel).result = none →
      (copy src w1 w2 fuel).sink2.received <+:
        (Sink.write w1 (copy src w1 w2 fuel).sink1
          (src (copy src w1 w2 fuel).reads).data).1.received ∧
      (Sink.write w1 (copy src w1 w2 fuel).sink1
          (src (copy src w1 w2 fuel).reads).data).1.received <+:
        readSoFar src ((copy src w1 w2 fuel).reads + 1)) := by
  obtain ⟨hok, h21, h1r, hd⟩ := copyInv_copy src w1 w2 fuel
  refine ⟨h21, h1r, hd, hok, ?_⟩
  intro hrun
  obtain ⟨hs1, hs2⟩ := hok (by rw [hrun]; simp)
  simp only [Sink.write, readSoFar_succ]
  rw [hs1, hs2]
  exact ⟨List.prefix_append _ _, (List.prefix_append_right_inj _).2 (List.take_prefix _ _)⟩

/-! ## Lemmas on `main` -/

theorem stderr_eq : Stderr = some ⟨2⟩ := by decide

theorem newFile_uintptr (n : Int) (h0 : 0 ≤ n) (h1 : n < 9223372036854775808) :
    NewFile (uintptr n) = some ⟨n⟩ := by
  have hu : ((uintptr n : Nat) : Int) = n := by
    unfold uintptr
    omega
  have hi : intOfUintptr (uintptr n) = n := by
    unfold intOfUintptr
    rw [hu]
    exact wrapInt_of_range n (by omega) h1
  unfold NewFile
  simp only [hi]
  rw [if_neg (by omega)]

theorem main_of_flag (args : List String) (env : Env) (fuel : Nat) (h : isFlag args = true) :
    ∃ pr, pr ≠ Printed.nothing ∧ main args env fuel = some ⟨0, pr, none, none⟩ := by
  unfold isFlag at h
  unfold main
  match args, h with
  | _ :: a :: _, h =>
    simp only [Bool.or_eq_true] at h
    by_cases hv : isVersionFlag a = true
    · exact ⟨Printed.version, by decide, by simp [hv]⟩
    · rcases h with h | h
      · exact absurd h hv
      · exact ⟨Printed.usage, by decide, by simp [hv, h]⟩

theorem main_of_not_flag (args : List String) (env : Env) (fuel : Nat)
    (h : isFlag args = false) :
    main args env fuel =
      match (copy env.stdin env.stdout (env.writerOf (selectTarget args)) fuel).result with
      | none => none
      | some (some _) => some ⟨1, Printed.nothing, some (selectTarget args),
          some (copy env.stdin env.stdout (env.writerOf (selectTarget args)) fuel)⟩
      | some none => some ⟨0, Printed.nothing, some (selectTarget args),
          some (copy env.stdin env.stdout (env.writerOf (selectTarget args)) fuel)⟩ := by
  unfold isFlag at h
  unfold main
  match args, h with
  | [], _ => rfl
  | [_], _ => rfl
  | _ :: a :: _, h =>
    simp only [Bool.or_eq_false_iff] at h
    simp [h.1, h.2]

theorem copy_running_reads (src : Reader) (w1 w2 : Writer) (k : Nat)
    (h : (copy src w1 w2 k).result = none) : (copy src w1 w2 k).reads = k := by
  induction k with
  | zero => rfl
  | succ k ih =>
    rw [copy_succ] at h ⊢
    cases hr : (copy src w1 w2 k).result with
    | some r =>
      rw [copyStep_of_done src w1 w2 _ (by rw [hr]; simp), hr] at h
      cases h
    | none =>
      rw [copyStep_running src w1 w2 _ hr]
      by_cases hd : (src (copy src w1 w2 k).reads).data = []
      · rw [if_pos hd, ih hr]
      · rw [if_neg hd, ih hr]

/-- An iteration from a running state ends in failure exactly when its read
reports an error other than `EOF` or the multi-writer returns an error for its
chunk. -/
theorem copyStep_failure_iff (src : Reader) (w1 w2 : Writer) (st : CopyState)
    (hrun : st.result = none) :
    (∃ e, (copyStep src w1 w2 st).result = some (some e)) ↔
      ((∃ e, (src st.reads).err = some e ∧ e ≠ GoError.EOF) ∨
        ((src st.reads).data ≠ [] ∧
          (multiWrite w1 w2 st.sink1 st.sink2 (src st.reads).data).2.2 ≠ none)) := by
  have hafter : (∃ e, afterRead (src st.reads).err = some (some e)) ↔
      ∃ e, (src st.reads).err = some e ∧ e ≠ GoError.EOF := by
    cases he : (src st.reads).err with
    | none => simp [afterRead]
    | some x =>
      by_cases hx : x = GoError.EOF
      · simp [afterRead, hx]
      · simp [afterRead, hx]
  rw [copyStep_running src w1 w2 st hrun]
  by_cases hd : (src st.reads).data = []
  · rw [if_pos hd]
    simp only [hafter, hd, ne_eq, not_true_eq_false, false_and, or_false]
  · rw [if_neg hd]
    cases hm : (multiWrite w1 w2 st.sink1 st.sink2 (src st.reads).data).2.2 with
    | some x =>
      simp only [hm]
      constructor
      · intro _
        exact Or.inr ⟨hd, by simp⟩
      · intro _
        exact ⟨x, rfl⟩
    | none =>
      simp only [hm, hafter]
      constructor
      · intro h
        exact Or.inl h
      · rintro (h | ⟨-, h⟩)
        · exact h
        · exact absurd rfl h

/-- The copy has ended in failure exactly when some earlier iteration, started
in the loop, met a read failure or a write failure. -/
theorem copy_failure_iff (src : Reader) (w1 w2 : Writer) (fuel : Nat) :
    (∃ e, (copy src w1 w2 fuel).result = some (some e)) ↔
      ∃ k, k < fuel ∧ (copy src w1 w2 k).result = none ∧
        (readFailureAt src k ∨ writeFailureAt src w1 w2 k) := by
  have hstep : ∀ k, (copy src w1 w2 k).result = none →
      ((∃ e, (copy src w1 w2 (k + 1)).result = some (some e)) ↔
        (readFailureAt src k ∨ writeFailureAt src w1 w2 k)) := by
    intro k hk
    have h := copyStep_failure_iff src w1 w2 (copy src w1 w2 k) hk
    rw [← copy_succ, copy_running_reads src w1 w2 k hk] at h
    exact h
  constructor
  · intro hfail
    induction fuel with
    | zero =>
      obtain ⟨e, he⟩ := hfail
      cases he
    | succ n ih =>
      cases hr : (copy src w1 w2 n).result with
      | none => exact ⟨n, by omega, hr, (hstep n hr).1 hfail⟩
      | some r =>
        have hsame := copy_add_of_done src w1 w2 n 1 (by rw [hr]; simp)
        rw [hsame] at hfail
        obtain ⟨k, hk, h⟩ := ih hfail
        exact ⟨k, by omega, h⟩
  · rintro ⟨k, hk, hrun, hcause⟩
    obtain ⟨e, he⟩ := (hstep k hrun).2 hcause
    obtain ⟨j, rfl⟩ : ∃ j, fuel = k + 1 + j := ⟨fuel - (k + 1), by omega⟩
    rw [copy_add_of_done src w1 w2 (k + 1) j (by rw [he]; simp)]
    exact ⟨e, he⟩

/-- Once a read has reported end-of-stream or an error, the copy has left its
loop. -/
theorem copy_terminates (src : Reader) (w1 w2 : Writer) (N : Nat)
    (herr : (src N).err ≠ none) : (copy src w1 w2 (N + 1)).result ≠ none := by
  rw [copy_succ]
  cases hr : (copy src w1 w2 N).result with
  | some r =>
    rw [copyStep_of_done src w1 w2 _ (by rw [hr]; simp), hr]
    simp
  | none =>
    have hafter : afterRead (src N).err ≠ none := by
      cases he : (src N).err with
      | none => exact absurd he herr
      | some x =>
        by_cases hx : x = GoError.EOF
        · simp [afterRead, hx]
        · simp [afterRead, hx]
    rw [copyStep_running src w1 w2 _ hr, copy_running_reads src w1 w2 N hr]
    by_cases hd : (src N).data = []
    · rw [if_pos hd]
      exact hafter
    · rw [if_neg hd]
      cases hm : (multiWrite w1 w2 (copy src w1 w2 N).sink1 (copy src w1 w2 N).sink2
          (src N).data).2.2 with
      | some x => simp
      | none => exact hafter

/-! ## Claims on `main` -/

set_option maxRecDepth 8192 in
/-- C5: the run `teerr 9223372036854775808`. The argument is no flag, `atoi`
accepts it with the negative result `-2^63`, and the second sink `main` selects
is the nil file that `os.NewFile` returns for a negative descriptor, not a
descriptor of that number: on `exampleSource` the first chunk reaches standard
output, the write to the second sink fails with `ErrInvalid`, the second sink
gets nothing and the run ends with status 1. -/
theorem sink_selection_overflow :
    isFlag ["teerr", "9223372036854775808"] = false ∧
    atoi "9223372036854775808" = (-9223372036854775808, true) ∧
    selectTarget ["teerr", "9223372036854775808"] = none ∧
    selectTarget ["teerr", "9223372036854775808"] ≠ some ⟨-9223372036854775808⟩ ∧
    (main ["teerr", "9223372036854775808"] exampleEnv 1).map MainResult.exitCode = some 1 ∧
    (copy exampleEnv.stdin exampleEnv.stdout
      (exampleEnv.writerOf (selectTarget ["teerr", "9223372036854775808"])) 1).result
        = some (some GoError.ErrInvalid) ∧
    (copy exampleEnv.stdin exampleEnv.stdout
      (exampleEnv.writerOf (selectTarget ["teerr", "9223372036854775808"])) 1).sink1.received
        = [104, 105] ∧
    (copy exampleEnv.stdin exampleEnv.stdout
      (exampleEnv.writerOf (selectTarget ["teerr", "9223372036854775808"])) 1).sink2.received
        = [] := by
  decide

/-- Sink selection of `main` where the result of `atoi` is not negative: for an
argument list whose first argument is no flag, the copy runs from standard
input into standard output as sink one and the selected target as sink two,
nothing is printed, and the run ends only by the copy. The target is standard
error (descriptor 2) when there is no argument, the file of descriptor `n`
when `atoi` accepts the first argument with a result `n ≥ 0`, and standard
error when `atoi` rejects it. -/
theorem sink_selection (args : List String) (env : Env) (fuel : Nat)
    (hnf : isFlag args = false) :
    (∀ r, main args env fuel = some r →
      r.target = some (selectTarget args) ∧ r.printed = Printed.nothing ∧
      r.copied = some (copy env.stdin env.stdout (env.writerOf (selectTarget args)) fuel)) ∧
    (main args env fuel = none ↔
      (copy env.stdin env.stdout (env.writerOf (selectTarget args)) fuel).result = none) ∧
    Stderr = some ⟨2⟩ ∧
    (args.length ≤ 1 → selectTarget args = Stderr) ∧
    (∀ prog a rest n, args = prog :: a :: rest → atoi a = (n, true) → 0 ≤ n →
      selectTarget args = some ⟨n⟩ ∧ env.writerOf (selectTarget args) = env.file ⟨n⟩) ∧
    (∀ prog a rest, args = prog :: a :: rest → (atoi a).2 = false →
      selectTarget args = Stderr) := by
  refine ⟨?_, ?_, stderr_eq, ?_, ?_, ?_⟩
  · intro r hr
    rw [main_of_not_flag args env fuel hnf] at hr
    cases hres : (copy env.stdin env.stdout (env.writerOf (selectTarget args)) fuel).result with
    | none => simp [hres] at hr
    | some x =>
      cases x with
      | none =>
        simp only [hres, Option.some.injEq] at hr
        subst hr
        exact ⟨rfl, rfl, rfl⟩
      | some e =>
        simp only [hres, Option.some.injEq] at hr
        subst hr
        exact ⟨rfl, rfl, rfl⟩
  · rw [main_of_not_flag args env fuel hnf]
    cases hres : (copy env.stdin env.stdout (env.writerOf (selectTarget args)) fuel).result with
    | none => simp
    | some x =>
      cases x with
      | none => simp
      | some e => simp
  · intro hlen
    match args, hlen with
    | [], _ => rfl
    | [_], _ => rfl
  · intro prog a rest n hargs ha hn
    subst hargs
    have hrange := atoi_range a
    rw [ha] at hrange
    have hsel : selectTarget (prog :: a :: rest) = some ⟨n⟩ := by
      unfold selectTarget
      simp only [ha]
      exact newFile_uintptr n hn hrange.2
    exact ⟨hsel, by rw [hsel]; rfl⟩
  · intro prog a rest hargs ha
    subst hargs
    unfold selectTarget
    rcases hat : atoi a with ⟨n, b⟩
    rw [hat] at ha
    simp only at ha
    subst ha
    simp only [hat]

/-- Sink selection at `teerr 3`: the second sink is descriptor 3. -/
theorem sink_selection_witness :
    selectTarget ["teerr", "3"] = some ⟨3⟩ ∧
    exampleEnv.writerOf (selectTarget ["teerr", "3"]) = exampleEnv.file ⟨3⟩ :=
  (sink_selection ["teerr", "3"] exampleEnv 3 (by decide)).2.2.2.2.1
    "teerr" "3" [] 3 rfl (by decide) (by decide)

/-- C9: the exit status of `main`. With a version or help flag as first
argument every run returns status 0 after printing, with no copy (nothing read
from standard input) and no sink selected. Otherwise a run that returns has
status 0 or 1: 0 exactly when the copy ended without error, 1 exactly when
the copy ended with an error, which is exactly when some iteration met a read
failure or a write failure. And the run returns: once a read of standard input
has reported end-of-stream or an error, every longer run ends with the same
result. -/
theorem exit_status (args : List String) (env : Env) :
    (isFlag args = true → ∀ fuel, ∃ r, main args env fuel = some r ∧ r.exitCode = 0 ∧
      r.printed ≠ Printed.nothing ∧ r.copied = none ∧ r.target = none) ∧
    (isFlag args = false → ∀ fuel r, main args env fuel = some r →
      (r.exitCode = 0 ∨ r.exitCode = 1) ∧
      (r.exitCode = 0 ↔
        (copy env.stdin env.stdout (env.writerOf (selectTarget args)) fuel).result
          = some none) ∧
      (r.exitCode = 1 ↔
        ∃ e, (copy env.stdin env.stdout (env.writerOf (selectTarget args)) fuel).result
          = some (some e)) ∧
      (r.exitCode = 1 ↔
        ∃ k, k < fuel ∧
          (copy env.stdin env.stdout (env.writerOf (selectTarget args)) k).result = none ∧
          (readFailureAt env.stdin k ∨
            writeFailureAt env.stdin env.stdout (env.writerOf (selectTarget args)) k))) ∧
    (isFlag args = false → ∀ N, (env.stdin N).err ≠ none → ∀ j,
      (main args env (N + 1 + j)).isSome = true ∧
      main args env (N + 1 + j) = main args env (N + 1)) := by
  refine ⟨?_, ?_, ?_⟩
  · intro hf fuel
    obtain ⟨pr, hpr, hm⟩ := main_of_flag args env fuel hf
    exact ⟨_, hm, rfl, hpr, rfl, rfl⟩
  · intro hnf fuel r hr
    rw [main_of_not_flag args env fuel hnf] at hr
    rw [← copy_failure_iff]
    cases hres : (copy env.stdin env.stdout (env.writerOf (selectTarget args)) fuel).result with
    | none => simp [hres] at hr
    | some x =>
      cases x with
      | none =>
        simp only [hres, Option.some.injEq] at hr
        subst hr
        simp
      | some e =>
        simp only [hres, Option.some.injEq] at hr
        subst hr
        simp
  · intro hnf N herr j
    have hdone := copy_terminates env.stdin env.stdout (env.writerOf (selectTarget args)) N herr
    have hsame := copy_add_of_done env.stdin env.stdout (env.writerOf (selectTarget args))
      (N + 1) j hdone
    rw [main_of_not_flag args env (N + 1 + j) hnf, main_of_not_flag args env (N + 1) hnf, hsame]
    refine ⟨?_, rfl⟩
    cases hres : (copy env.stdin env.stdout (env.writerOf (selectTarget args)) (N + 1)).result with
    | none => exact absurd hres hdone
    | some x =>
      cases x with
      | none => rfl
      | some e => rfl

/-- Instances of C9: `teerr --help` ends with status 0 after printing, without
a copy and without a sink; `teerr` on `exampleSource`, whose third read reports
end-of-stream, has returned after three iterations. -/
theorem exit_status_witness :
    (∃ r, main ["teerr", "--help"] exampleEnv 0 = some r ∧ r.exitCode = 0 ∧
      r.printed ≠ Printed.nothing ∧ r.copied = none ∧ r.target = none) ∧
    ((main ["teerr"] exampleEnv (2 + 1 + 0)).isSome = true ∧
      main ["teerr"] exampleEnv (2 + 1 + 0) = main ["teerr"] exampleEnv (2 + 1)) :=
  ⟨(exit_status ["teerr", "--help"] exampleEnv).1 (by decide) 0,
   (exit_status ["teerr"] exampleEnv).2.2 (by decide) 2 (by decide) 0⟩

end Teerr
